import Mathlib

/-
Shallow embedding of `picolog/data.py` (classes `Sample`, `Reading`, `DataStore`).

Modelling notes, all justified by the source:
* The code targets Python 2 (`from __future__ import print_function`, the comment
  "In Python 3 this will probably break" in `json_repr`, and `map(...)` used for its
  side effects in `_insert_reading`, which only runs eagerly in Python 2).  We embed
  Python 2 semantics, in particular `int > None` evaluates to `True`.
* Python ints are `Int`; sample values (Python floats, produced by `float(value)`,
  only copied, compared with 0 and passed through user callbacks here) are `ℚ`.
* Mutation of `self.readings` becomes explicit state passing: each method that
  mutates the store returns the new store, paired with an `Option`/`Except` error
  where the Python code can raise.
-/

/-- `class Sample` (data.py): one channel's value.  `Sample.__init__` validates the
channel against the external `Channel.is_valid` and coerces `value` with `float`;
the validated/coerced result is this plain record. -/
structure Sample where
  channel : Int
  value : ℚ
deriving DecidableEq

/-- `class Reading` (data.py): `reading_time` plus parallel `channels`/`samples`
lists, as left by a successful `Reading.__init__`. -/
structure Reading where
  reading_time : Int
  channels : List Int
  samples : List Sample
deriving DecidableEq

/-- The distinct raise sites of data.py (the Python code raises bare
`Exception`/`ValueError`; the spec names them, and we keep one constructor per
site so the sites stay distinguishable). -/
inductive DataErr where
  /-- `Reading.__init__`: channels and samples lists have different lengths. -/
  | lengthMismatch : DataErr
  /-- `Sample.__init__`: `Channel.is_valid(channel)` is false. -/
  | invalidChannel : DataErr
  /-- `DataStore.insert`: "A new reading time is earlier than an existing reading time". -/
  | nonMonotonic : DataErr
  /-- `del self.readings[0]` on an empty list: Python `IndexError`. -/
  | indexError : DataErr
deriving DecidableEq

/-- `Sample.__init__(channel, value)`.  `Channel.is_valid` lives in
`picolog.constants`, which is not part of this repository's sources; per the spec
it is an external capability `is_valid(channel) -> bool`, so it is passed in as a
parameter `is_valid`. -/
def Sample.init (is_valid : Int → Bool) (channel : Int) (value : ℚ) :
    Except DataErr Sample :=
  if is_valid channel then .ok ⟨channel, value⟩ else .error .invalidChannel

/-- `Reading.__init__(reading_time, channels, samples)`: coerce the time with
`int` (identity on `Int`), check the two lists have equal length, then build one
`Sample` per `(channel, value)` pair of `zip(channels, samples)`. -/
def Reading.init (is_valid : Int → Bool) (reading_time : Int)
    (channels : List Int) (samples : List ℚ) : Except DataErr Reading :=
  if channels.length = samples.length then
    ((channels.zip samples).mapM fun cv => Sample.init is_valid cv.1 cv.2).map
      fun ss => ⟨reading_time, channels, ss⟩
  else .error .lengthMismatch

/-- `Reading.list_repr()`: `[reading_time, value_0, value_1, ...]`.  The Python
list is heterogeneous (one int, then floats); we model it as the list of rationals
with the time coerced. -/
def Reading.list_repr (r : Reading) : List ℚ :=
  (r.reading_time : ℚ) :: r.samples.map Sample.value

/-- `Reading.apply_function(function)` (data.py lines 102-113): call `function` on
the current values, then write the outputs back with
`for sample, new_value in zip(self.samples, output)` — `zip` stops at the shorter
list, so only the first `len(output)` samples are updated and the rest keep their
old values; extra outputs are ignored and no length check is performed. -/
def Reading.apply_function (r : Reading) (function : List ℚ → List ℚ) : Reading :=
  let output := function (r.samples.map Sample.value)
  { r with samples :=
      (r.samples.zip output).map (fun p => { p.1 with value := p.2 })
        ++ r.samples.drop output.length }

/-- `class DataStore` (data.py): capacity, overflow policy, conversion callbacks
and the list of stored readings. -/
structure DataStore where
  reading_storage_length : Int
  increase_buffer : Bool
  conversion_callbacks : List (List ℚ → List ℚ)
  readings : List Reading

/-- `DataStore.__init__(reading_storage_length, increase_buffer=False,
conversion_callbacks=[])`: `int` coercion on the capacity, empty readings list. -/
def DataStore.init (reading_storage_length : Int) (increase_buffer : Bool := false)
    (conversion_callbacks : List (List ℚ → List ℚ) := []) : DataStore :=
  ⟨reading_storage_length, increase_buffer, conversion_callbacks, []⟩

/-- The test of data.py lines 288-290: `reading.reading_time == 0 and not
any([sample for sample in reading.samples if sample.value != 0])` — the "no data
captured" sentinel that `insert` silently skips. -/
def Reading.isZeroSentinel (r : Reading) : Bool :=
  r.reading_time == 0 && !(r.samples.any fun s => s.value != 0)

/-- The `map(lambda func: reading.apply_function(func), ...)` line of
`_insert_reading`: apply every conversion callback, in registration order
(eager in Python 2). -/
def Reading.applyAll (r : Reading) (fns : List (List ℚ → List ℚ)) : Reading :=
  fns.foldl Reading.apply_function r

/-- `DataStore._insert_reading(reading)`: run the conversion callbacks on the
reading, then append it to `self.readings`. -/
def DataStore.insert_reading (ds : DataStore) (r : Reading) : DataStore :=
  { ds with readings := ds.readings ++ [r.applyAll ds.conversion_callbacks] }

/-- Lines 298-308 of `DataStore.insert`: the capacity check (`len(self.readings)
>= self.reading_storage_length`) with grow-or-evict (`del self.readings[0]`
raising `IndexError` on an empty list), then `_insert_reading`. -/
def DataStore.insertAccept (ds : DataStore) (r : Reading) :
    DataStore × Option DataErr :=
  if (ds.readings.length : Int) ≥ ds.reading_storage_length then
    if ds.increase_buffer then
      (DataStore.insert_reading
        { ds with reading_storage_length := ds.reading_storage_length + 1 } r,
       none)
    else
      match ds.readings with
      | [] => (ds, some .indexError)
      | _ :: rest => (DataStore.insert_reading { ds with readings := rest } r, none)
  else (DataStore.insert_reading ds r, none)

/-- One iteration of the `for reading in readings` loop of `DataStore.insert`
(data.py lines 286-308): sentinel skip, monotonic-time check against
`self.readings[-1]`, then the capacity-check-and-append step. -/
def DataStore.insertOne (ds : DataStore) (r : Reading) :
    DataStore × Option DataErr :=
  if r.isZeroSentinel then (ds, none)
  else
    match ds.readings.getLast? with
    | some lastR =>
        if r.reading_time ≤ lastR.reading_time then (ds, some .nonMonotonic)
        else ds.insertAccept r
    | none => ds.insertAccept r

/-- `DataStore.insert(readings)`: run `insertOne` over the list, stopping (with
the partial state kept — no rollback) at the first raise. -/
def DataStore.insert (ds : DataStore) (rs : List Reading) :
    DataStore × Option DataErr :=
  match rs with
  | [] => (ds, none)
  | r :: rest =>
    match ds.insertOne r with
    | (ds', none) => ds'.insert rest
    | (ds', some e) => (ds', some e)

/-- Calling `store.insert([r])` once per reading, left to right, stopping at the
first call that raises: the "one at a time" insertion pattern of the spec's
testable properties. -/
def DataStore.insertSeq (ds : DataStore) (rs : List Reading) :
    DataStore × Option DataErr :=
  match rs with
  | [] => (ds, none)
  | r :: rest =>
    match ds.insert [r] with
    | (ds', none) => ds'.insertSeq rest
    | (ds', some e) => (ds', some e)

/-- `Sample.dict_repr()`: `{'channel': ..., 'value': ...}`. -/
structure SampleDict where
  channel : Int
  value : ℚ
deriving DecidableEq

/-- `Reading.dict_repr()`: `{"reading_time": ..., "channels": ..., "samples": [...]}`. -/
structure ReadingDict where
  reading_time : Int
  channels : List Int
  samples : List SampleDict
deriving DecidableEq

/-- `Sample.dict_repr()` (data.py lines 144-147). -/
def Sample.dict_repr (s : Sample) : SampleDict := ⟨s.channel, s.value⟩

/-- `Reading.dict_repr()` (data.py lines 80-84). -/
def Reading.dict_repr (r : Reading) : ReadingDict :=
  ⟨r.reading_time, r.channels, r.samples.map Sample.dict_repr⟩

/-- `DataStore.insert_from_dict(ddict)` (data.py lines 322-338): rebuild a
`Reading` from every row (its `reading_time`, `channels` and the `value` fields
of its `samples`) — the whole comprehension runs, and so can raise, before any
insertion — then delegate to `insert`. -/
def DataStore.insert_from_dict (is_valid : Int → Bool) (ds : DataStore)
    (ddict : List ReadingDict) : DataStore × Option DataErr :=
  match ddict.mapM fun row =>
      Reading.init is_valid row.reading_time row.channels
        (row.samples.map SampleDict.value) with
  | .error e => (ds, some e)
  | .ok readings => ds.insert readings

/-- `DataStore.instance_from_dict(ddict)` (data.py lines 184-198, no extra
arguments): a fresh store of capacity `len(ddict)` filled via `insert_from_dict`. -/
def DataStore.instance_from_dict (is_valid : Int → Bool)
    (ddict : List ReadingDict) : DataStore × Option DataErr :=
  DataStore.insert_from_dict is_valid (DataStore.init (ddict.length)) ddict

/-- `DataStore.instance_with_readings(readings)` (data.py lines 211-224): a fresh
store with this store's capacity (default `increase_buffer`/callbacks), filled via
`insert`. -/
def DataStore.instance_with_readings (ds : DataStore) (readings : List Reading) :
    DataStore × Option DataErr :=
  (DataStore.init ds.reading_storage_length).insert readings

/-- `DataStore.find_reading(timestamp)` (data.py lines 340-348): first reading with
that exact time, else `None`. -/
def DataStore.find_reading (ds : DataStore) (timestamp : Int) : Option Reading :=
  ds.readings.find? fun r => r.reading_time == timestamp

/-- `DataStore.find_readings_after(timestamp)` (data.py lines 350-358): new store
with the readings having `reading_time > timestamp`. -/
def DataStore.find_readings_after (ds : DataStore) (timestamp : Int) :
    DataStore × Option DataErr :=
  ds.instance_with_readings (ds.readings.filter fun r => timestamp < r.reading_time)

/-- `DataStore.find_readings_before(timestamp)` (data.py lines 360-368): new store
with the readings having `reading_time <= timestamp`. -/
def DataStore.find_readings_before (ds : DataStore) (timestamp : Int) :
    DataStore × Option DataErr :=
  ds.instance_with_readings (ds.readings.filter fun r => r.reading_time ≤ timestamp)

/-- Rendering of a float by Python 2's `json.dumps`, for whole-valued floats such
as `0.0` → `"0.0"` (the only sample values the concrete theorems below feed it;
non-integral values are approximated, which no theorem relies on). -/
def floatStr (q : ℚ) : String :=
  if q.den = 1 then toString q.num ++ ".0" else toString q

/-- `json.dumps` of one `Sample.dict_repr()` dict, with the default separators
`", "` and `": "`.  (CPython 2 iterates dict keys in hash order; only the length
of the encoding feeds back into `json_repr`, and the length does not depend on
the key order, so keys are rendered in the literal's order.) -/
def SampleDict.jsonStr (s : SampleDict) : String :=
  "\x7b\"channel\": " ++ toString s.channel ++ ", \"value\": " ++ floatStr s.value ++ "\x7d"

/-- `json.dumps` of one `Reading.dict_repr()` dict. -/
def ReadingDict.jsonStr (row : ReadingDict) : String :=
  "\x7b\"reading_time\": " ++ toString row.reading_time
    ++ ", \"channels\": [" ++ String.intercalate ", " (row.channels.map toString)
    ++ "], \"samples\": [" ++ String.intercalate ", " (row.samples.map SampleDict.jsonStr)
    ++ "]\x7d"

/-- `json.dumps` of a list of reading dicts. -/
def dumps (rows : List ReadingDict) : String :=
  "[" ++ String.intercalate ", " (rows.map ReadingDict.jsonStr) ++ "]"

/-- Python 2 evaluation of `len(json_encoded) > max_bytes` in `json_repr`:
in Python 2 every int compares greater than `None`. -/
def lenGtMaxBytes (n : Nat) (max_bytes : Option Int) : Bool :=
  match max_bytes with
  | none => true
  | some m => (n : Int) > m

/-- Outcome of `DataStore.json_repr`: a returned string, the raise of the
trim-disabled branch, or the `while` loop never terminating. -/
inductive JsonResult where
  | ok : String → JsonResult
  | tooLarge : JsonResult
  | hang : JsonResult
deriving DecidableEq

/-- `DataStore.json_repr(max_bytes=None, max_bytes_data_trim=True)` (data.py lines
238-267).  The trimming loop is
`while len(json_encoded) > max_bytes: json_encoded = json.dumps(json_readings[:-1])`;
`json_readings` is never reassigned, so every iteration recomputes the same
string: the loop exits after the first iteration if `dumps(json_readings[:-1])`
fits, and otherwise never exits.  That exact case analysis is what this
definition returns (`JsonResult.hang` for the second case). -/
def DataStore.json_repr (ds : DataStore) (max_bytes : Option Int := none)
    (max_bytes_data_trim : Bool := true) : JsonResult :=
  let json_readings := ds.readings.map Reading.dict_repr
  let json_encoded := dumps json_readings
  if lenGtMaxBytes json_encoded.length max_bytes then
    if max_bytes_data_trim then
      let trimmed := dumps json_readings.dropLast
      if lenGtMaxBytes trimmed.length max_bytes then JsonResult.hang
      else JsonResult.ok trimmed
    else JsonResult.tooLarge
  else JsonResult.ok json_encoded

/-- Strict ascending order of the stored times ("sorted ascending by
`reading_time` with no duplicate timestamps"). -/
def TimesSorted (rs : List Reading) : Prop :=
  rs.Pairwise fun a b => a.reading_time < b.reading_time

instance : DecidablePred TimesSorted := fun rs =>
  inferInstanceAs (Decidable (rs.Pairwise _))

/-! ### Basic lemmas about the insertion loop -/

/-- A zero-sentinel reading is skipped by the loop body: the iteration is a no-op. -/
theorem insertOne_sentinel (ds : DataStore) (r : Reading)
    (h : r.isZeroSentinel = true) : ds.insertOne r = (ds, none) := by
  simp [DataStore.insertOne, h]

/-- A non-sentinel reading not strictly later than `readings[-1]` makes the loop
body raise at once, leaving the store untouched. -/
theorem insertOne_reject (ds : DataStore) (r lastR : Reading)
    (hs : r.isZeroSentinel = false)
    (hl : ds.readings.getLast? = some lastR)
    (hle : r.reading_time ≤ lastR.reading_time) :
    ds.insertOne r = (ds, some .nonMonotonic) := by
  simp [DataStore.insertOne, hs, hl, hle]

/-- When the sentinel and monotonic-time checks pass, the loop body runs the
capacity logic followed by `_insert_reading`. -/
theorem insertOne_accept (ds : DataStore) (r : Reading)
    (hs : r.isZeroSentinel = false)
    (hmono : ∀ lastR, ds.readings.getLast? = some lastR →
      lastR.reading_time < r.reading_time) :
    ds.insertOne r = ds.insertAccept r := by
  unfold DataStore.insertOne
  rw [if_neg (by simp [hs])]
  cases hl : ds.readings.getLast? with
  | none => rfl
  | some lastR =>
    dsimp only
    rw [if_neg (not_le.mpr (hmono lastR hl))]

/-- `insert` of a singleton batch is exactly one loop iteration. -/
theorem insert_singleton (ds : DataStore) (r : Reading) :
    ds.insert [r] = ds.insertOne r := by
  rcases h : ds.insertOne r with ⟨ds', e⟩
  cases e <;> simp [DataStore.insert, h]

/-- A batch whose prefix succeeds continues from the state the prefix left. -/
theorem insert_append_ok (ds ds' : DataStore) (xs ys : List Reading)
    (h : ds.insert xs = (ds', none)) : ds.insert (xs ++ ys) = ds'.insert ys := by
  induction xs generalizing ds with
  | nil =>
    simp only [DataStore.insert, Prod.mk.injEq] at h
    simp [h.1]
  | cons x xs ih =>
    rcases hx : ds.insertOne x with ⟨ds1, e⟩
    cases e with
    | none =>
      simp only [List.cons_append, DataStore.insert, hx] at h ⊢
      exact ih ds1 h
    | some e =>
      simp only [DataStore.insert, hx, Prod.mk.injEq] at h
      cases h.2

/-- One-at-a-time insertion runs the very same loop as a single batch. -/
theorem insertSeq_eq_insert (rs : List Reading) (ds : DataStore) :
    ds.insertSeq rs = ds.insert rs := by
  induction rs generalizing ds with
  | nil => rfl
  | cons r rest ih =>
    rcases h : ds.insertOne r with ⟨ds1, e⟩
    cases e with
    | none =>
      simp only [DataStore.insertSeq, insert_singleton, h]
      simp only [DataStore.insert, h]
      exact ih ds1
    | some e => simp only [DataStore.insertSeq, insert_singleton, DataStore.insert, h]

/-- The conversion pipeline leaves `reading_time` (and `channels`) alone: it only
writes sample values. -/
theorem applyAll_reading_time (fns : List (List ℚ → List ℚ)) (r : Reading) :
    (r.applyAll fns).reading_time = r.reading_time := by
  induction fns generalizing r with
  | nil => rfl
  | cons f fns ih => exact ih (r.apply_function f)

/-- With no conversion callbacks registered, the pipeline is the identity. -/
theorem applyAll_nil (r : Reading) : r.applyAll [] = r := rfl

/-! ### The store invariant: strictly ascending times, size within capacity -/

/-- In a strictly ascending list every element is at most the last one. -/
theorem le_getLast_of_sorted (rs : List Reading) (lastR : Reading)
    (h : TimesSorted rs) (hl : rs.getLast? = some lastR) :
    ∀ x ∈ rs, x.reading_time ≤ lastR.reading_time := by
  induction rs with
  | nil => cases hl
  | cons a rs ih =>
    intro x hx
    cases rs with
    | nil =>
      simp only [List.getLast?_singleton, Option.some.injEq] at hl
      rw [List.mem_singleton] at hx
      rw [hx, ← hl]
    | cons b rs2 =>
      rw [List.getLast?_cons_cons] at hl
      rcases List.mem_cons.mp hx with rfl | hx2
      · have hmem : lastR ∈ b :: rs2 := List.mem_of_mem_getLast? hl
        exact le_of_lt ((List.pairwise_cons.mp h).1 lastR hmem)
      · exact ih h.of_cons hl x hx2

/-- Appending a strictly later reading keeps the list strictly ascending. -/
theorem timesSorted_append_one (rs : List Reading) (r' : Reading)
    (h : TimesSorted rs) (hgt : ∀ x ∈ rs, x.reading_time < r'.reading_time) :
    TimesSorted (rs ++ [r']) := by
  unfold TimesSorted at *
  rw [List.pairwise_append]
  exact ⟨h, List.pairwise_singleton _ _, fun a ha b hb => by
    rw [List.mem_singleton] at hb; rw [hb]; exact hgt a ha⟩

/-- The capacity-and-append step keeps the times strictly ascending, provided the
incoming reading is later than everything stored. -/
theorem timesSorted_insertAccept (ds : DataStore) (r : Reading)
    (h : TimesSorted ds.readings)
    (hgt : ∀ x ∈ ds.readings, x.reading_time < r.reading_time) :
    TimesSorted (ds.insertAccept r).1.readings := by
  have hgt' : ∀ x ∈ ds.readings,
      x.reading_time < (r.applyAll ds.conversion_callbacks).reading_time := by
    intro x hx; rw [applyAll_reading_time]; exact hgt x hx
  unfold DataStore.insertAccept
  split
  · split
    · exact timesSorted_append_one _ _ h hgt'
    · split
      · exact h
      · next heq =>
        refine timesSorted_append_one _ _ ?_ ?_
        · rw [heq] at h; exact h.of_cons
        · intro x hx
          exact hgt' x (by rw [heq]; exact List.mem_cons_of_mem _ hx)
  · exact timesSorted_append_one _ _ h hgt'

/-- One loop iteration keeps the times strictly ascending. -/
theorem timesSorted_insertOne (ds : DataStore) (r : Reading)
    (h : TimesSorted ds.readings) : TimesSorted (ds.insertOne r).1.readings := by
  by_cases hs : r.isZeroSentinel
  · rw [insertOne_sentinel ds r hs]; exact h
  · rw [Bool.not_eq_true] at hs
    cases hl : ds.readings.getLast? with
    | none =>
      rw [insertOne_accept ds r hs (by intro lr hlr; rw [hl] at hlr; cases hlr)]
      refine timesSorted_insertAccept ds r h ?_
      rw [List.getLast?_eq_none_iff.mp hl]
      intro x hx; cases hx
    | some lastR =>
      by_cases hle : r.reading_time ≤ lastR.reading_time
      · rw [insertOne_reject ds r lastR hs hl hle]; exact h
      · rw [insertOne_accept ds r hs
          (by intro lr hlr; rw [hl] at hlr; injection hlr with e; rw [← e]; omega)]
        exact timesSorted_insertAccept ds r h fun x hx =>
          lt_of_le_of_lt (le_getLast_of_sorted _ _ h hl x hx) (not_le.mp hle)

/-- An `insert` call keeps the times strictly ascending, whether it raises or not. -/
theorem timesSorted_insert (ds : DataStore) (rs : List Reading)
    (h : TimesSorted ds.readings) : TimesSorted (ds.insert rs).1.readings := by
  induction rs generalizing ds with
  | nil => exact h
  | cons r rest ih =>
    have h1 := timesSorted_insertOne ds r h
    rcases he : ds.insertOne r with ⟨ds1, e⟩
    rw [he] at h1
    cases e with
    | none => simp only [DataStore.insert, he]; exact ih ds1 h1
    | some e => simp only [DataStore.insert, he]; exact h1

/-- An `insert_from_dict` call keeps the times strictly ascending. -/
theorem timesSorted_insert_from_dict (is_valid : Int → Bool) (ds : DataStore)
    (ddict : List ReadingDict) (h : TimesSorted ds.readings) :
    TimesSorted (ds.insert_from_dict is_valid ddict).1.readings := by
  unfold DataStore.insert_from_dict
  cases ddict.mapM fun row =>
      Reading.init is_valid row.reading_time row.channels
        (row.samples.map SampleDict.value) with
  | error e => exact h
  | ok readings => exact timesSorted_insert ds readings h

/-- The capacity-and-append step keeps the store size within the (possibly
grown) capacity, for a nonnegative capacity. -/
theorem lenInv_insertAccept (ds : DataStore) (r : Reading)
    (hlen : (ds.readings.length : Int) ≤ ds.reading_storage_length)
    (hcap : 0 ≤ ds.reading_storage_length) :
    ((ds.insertAccept r).1.readings.length : Int)
        ≤ (ds.insertAccept r).1.reading_storage_length
      ∧ 0 ≤ (ds.insertAccept r).1.reading_storage_length := by
  unfold DataStore.insertAccept
  split
  · split
    · simp only [DataStore.insert_reading, List.length_append, List.length_singleton]
      constructor
      · push_cast; omega
      · omega
    · split
      · exact ⟨hlen, hcap⟩
      · next heq =>
        simp only [DataStore.insert_reading, List.length_append, List.length_singleton]
        constructor
        · rw [heq] at hlen; simp only [List.length_cons] at hlen
          push_cast at hlen ⊢; omega
        · exact hcap
  · simp only [DataStore.insert_reading, List.length_append, List.length_singleton]
    next hlt =>
    constructor
    · push_cast; omega
    · exact hcap

/-- One loop iteration keeps the store size within the capacity. -/
theorem lenInv_insertOne (ds : DataStore) (r : Reading)
    (hlen : (ds.readings.length : Int) ≤ ds.reading_storage_length)
    (hcap : 0 ≤ ds.reading_storage_length) :
    ((ds.insertOne r).1.readings.length : Int)
        ≤ (ds.insertOne r).1.reading_storage_length
      ∧ 0 ≤ (ds.insertOne r).1.reading_storage_length := by
  by_cases hs : r.isZeroSentinel
  · rw [insertOne_sentinel ds r hs]; exact ⟨hlen, hcap⟩
  · rw [Bool.not_eq_true] at hs
    cases hl : ds.readings.getLast? with
    | none =>
      rw [insertOne_accept ds r hs (by intro lr hlr; rw [hl] at hlr; cases hlr)]
      exact lenInv_insertAccept ds r hlen hcap
    | some lastR =>
      by_cases hle : r.reading_time ≤ lastR.reading_time
      · rw [insertOne_reject ds r lastR hs hl hle]; exact ⟨hlen, hcap⟩
      · rw [insertOne_accept ds r hs
          (by intro lr hlr; rw [hl] at hlr; injection hlr with e; rw [← e]; omega)]
        exact lenInv_insertAccept ds r hlen hcap

/-- An `insert` call keeps the store size within the capacity. -/
theorem lenInv_insert (ds : DataStore) (rs : List Reading)
    (hlen : (ds.readings.length : Int) ≤ ds.reading_storage_length)
    (hcap : 0 ≤ ds.reading_storage_length) :
    ((ds.insert rs).1.readings.length : Int) ≤ (ds.insert rs).1.reading_storage_length
      ∧ 0 ≤ (ds.insert rs).1.reading_storage_length := by
  induction rs generalizing ds with
  | nil => exact ⟨hlen, hcap⟩
  | cons r rest ih =>
    have h1 := lenInv_insertOne ds r hlen hcap
    rcases he : ds.insertOne r with ⟨ds1, e⟩
    rw [he] at h1
    cases e with
    | none => simp only [DataStore.insert, he]; exact ih ds1 h1.1 h1.2
    | some e => simp only [DataStore.insert, he]; exact h1

/-- An `insert_from_dict` call keeps the store size within the capacity. -/
theorem lenInv_insert_from_dict (is_valid : Int → Bool) (ds : DataStore)
    (ddict : List ReadingDict)
    (hlen : (ds.readings.length : Int) ≤ ds.reading_storage_length)
    (hcap : 0 ≤ ds.reading_storage_length) :
    (((ds.insert_from_dict is_valid ddict).1.readings.length : Int)
        ≤ (ds.insert_from_dict is_valid ddict).1.reading_storage_length)
      ∧ 0 ≤ (ds.insert_from_dict is_valid ddict).1.reading_storage_length := by
  unfold DataStore.insert_from_dict
  cases ddict.mapM fun row =>
      Reading.init is_valid row.reading_time row.channels
        (row.samples.map SampleDict.value) with
  | error e => exact ⟨hlen, hcap⟩
  | ok readings => exact lenInv_insert ds readings hlen hcap

/-- The stores reachable from a freshly constructed store by `insert` /
`insert_from_dict` calls, keeping the partial state of calls that raise. -/
inductive Reachable : DataStore → Prop where
  | init (cap : Int) (incr : Bool) (cbs : List (List ℚ → List ℚ)) :
      Reachable (DataStore.init cap incr cbs)
  | insert (ds : DataStore) (rs : List Reading) :
      Reachable ds → Reachable (ds.insert rs).1
  | insert_from_dict (is_valid : Int → Bool) (ds : DataStore)
      (ddict : List ReadingDict) :
      Reachable ds → Reachable (ds.insert_from_dict is_valid ddict).1

/-- As `Reachable`, but the store was constructed with a nonnegative capacity. -/
inductive ReachableNN : DataStore → Prop where
  | init (cap : Int) (incr : Bool) (cbs : List (List ℚ → List ℚ)) :
      0 ≤ cap → ReachableNN (DataStore.init cap incr cbs)
  | insert (ds : DataStore) (rs : List Reading) :
      ReachableNN ds → ReachableNN (ds.insert rs).1
  | insert_from_dict (is_valid : Int → Bool) (ds : DataStore)
      (ddict : List ReadingDict) :
      ReachableNN ds → ReachableNN (ds.insert_from_dict is_valid ddict).1

example :
    (DataStore.insert (DataStore.init 3)
      [⟨1, [1], [⟨1, 5⟩]⟩, ⟨2, [1], [⟨1, 6⟩]⟩]).1.readings
      = [⟨1, [1], [⟨1, 5⟩]⟩, ⟨2, [1], [⟨1, 6⟩]⟩] := by decide

example :
    (DataStore.insert (DataStore.init 1)
      [⟨1, [1], [⟨1, 5⟩]⟩, ⟨2, [1], [⟨1, 6⟩]⟩]).1.readings
      = [⟨2, [1], [⟨1, 6⟩]⟩] := by decide

example :
    (DataStore.insert (DataStore.init 3)
      [⟨2, [1], [⟨1, 5⟩]⟩, ⟨1, [1], [⟨1, 6⟩]⟩]).2 = some .nonMonotonic := by decide

example :
    dumps [⟨1, [1], [⟨1, 0⟩]⟩] =
      "[\x7b\"reading_time\": 1, \"channels\": [1], \"samples\": [\x7b\"channel\": 1, \"value\": 0.0\x7d]\x7d]" := by
  decide


/-! ### Claim theorems -/

/-- C3 (counterexample to the claim as stated): the claim quantifies over every
store reachable from an empty store, with no restriction on the constructed
capacity; a store freshly constructed with `reading_storage_length = -1` is
reachable by the empty sequence of calls, yet `len(readings) = 0` already exceeds
the capacity `-1` while `increase_buffer` is false and nothing has grown. -/
theorem c3_counterexample :
    Reachable (DataStore.init (-1))
      ∧ ¬ (((DataStore.init (-1)).readings.length : Int)
            ≤ (DataStore.init (-1)).reading_storage_length) :=
  ⟨Reachable.init (-1) false [], by decide⟩

/-- Helper for C3: the full inductive invariant (sortedness, size within
capacity, nonnegative capacity) holds along every reachable execution that
started from a nonnegative capacity. -/
theorem reachableNN_inv (ds : DataStore) (h : ReachableNN ds) :
    TimesSorted ds.readings
      ∧ ((ds.readings.length : Int) ≤ ds.reading_storage_length
          ∧ 0 ≤ ds.reading_storage_length) := by
  induction h with
  | init cap incr cbs hcap =>
    exact ⟨List.Pairwise.nil, by simpa [DataStore.init] using hcap, hcap⟩
  | insert ds rs hr ih =>
    exact ⟨timesSorted_insert ds rs ih.1, lenInv_insert ds rs ih.2.1 ih.2.2⟩
  | insert_from_dict is_valid ds ddict hr ih =>
    exact ⟨timesSorted_insert_from_dict is_valid ds ddict ih.1,
      lenInv_insert_from_dict is_valid ds ddict ih.2.1 ih.2.2⟩

/-- C3 (amended): for every DataStore reachable from an empty store constructed
with a nonnegative `reading_storage_length` by any sequence of `insert` /
`insert_from_dict` calls (including ones that raised), the readings list is
sorted strictly ascending by `reading_time` (hence no duplicate timestamps) and
`len(readings) <= reading_storage_length` (when `increase_buffer` is true,
`reading_storage_length` has grown to accommodate). -/
theorem c3_store_invariant (ds : DataStore) (h : ReachableNN ds) :
    TimesSorted ds.readings
      ∧ (ds.readings.length : Int) ≤ ds.reading_storage_length :=
  ⟨(reachableNN_inv ds h).1, (reachableNN_inv ds h).2.1⟩

/-- Witness for C3: a concrete reachable store (capacity 2, two inserts, one of
which was evicted-free) satisfies the invariant. -/
theorem c3_witness :
    TimesSorted ((DataStore.init 2).insert [⟨1, [1], [⟨1, 1⟩]⟩]).1.readings
      ∧ ((((DataStore.init 2).insert [⟨1, [1], [⟨1, 1⟩]⟩]).1.readings.length : Int)
          ≤ ((DataStore.init 2).insert [⟨1, [1], [⟨1, 1⟩]⟩]).1.reading_storage_length) :=
  c3_store_invariant _
    (ReachableNN.insert _ _ (ReachableNN.init 2 false [] (by decide)))

/-- C5: a reading whose `reading_time` is 0 and whose sample values are all zero
is silently skipped by `insert`, whatever the store holds: the loop moves on to
the rest of the batch unchanged (in particular inserting just the sentinel
returns the store untouched with no error, so no conversion ran and no slot was
used). -/
theorem c5_sentinel_skipped (ds : DataStore) (r : Reading) (rest : List Reading)
    (h : r.isZeroSentinel = true) :
    ds.insert (r :: rest) = ds.insert rest ∧ ds.insert [r] = (ds, none) := by
  constructor
  · simp only [DataStore.insert, insertOne_sentinel ds r h]
  · rw [insert_singleton, insertOne_sentinel ds r h]

/-- Witness for C5: the all-zero time-0 reading is skipped by a concrete
non-empty store. -/
theorem c5_witness :
    Reading.isZeroSentinel ⟨0, [1, 2], [⟨1, 0⟩, ⟨2, 0⟩]⟩ = true
    ∧ DataStore.insert ⟨3, false, [], [⟨5, [1], [⟨1, 4⟩]⟩]⟩
        (⟨0, [1, 2], [⟨1, 0⟩, ⟨2, 0⟩]⟩ :: [⟨7, [1], [⟨1, 1⟩]⟩])
      = DataStore.insert ⟨3, false, [], [⟨5, [1], [⟨1, 4⟩]⟩]⟩ [⟨7, [1], [⟨1, 1⟩]⟩]
    ∧ DataStore.insert ⟨3, false, [], [⟨5, [1], [⟨1, 4⟩]⟩]⟩
        [⟨0, [1, 2], [⟨1, 0⟩, ⟨2, 0⟩]⟩]
      = (⟨3, false, [], [⟨5, [1], [⟨1, 4⟩]⟩]⟩, none) :=
  ⟨by decide,
    (c5_sentinel_skipped ⟨3, false, [], [⟨5, [1], [⟨1, 4⟩]⟩]⟩
      ⟨0, [1, 2], [⟨1, 0⟩, ⟨2, 0⟩]⟩ [⟨7, [1], [⟨1, 1⟩]⟩] (by decide)).1,
    (c5_sentinel_skipped ⟨3, false, [], [⟨5, [1], [⟨1, 4⟩]⟩]⟩
      ⟨0, [1, 2], [⟨1, 0⟩, ⟨2, 0⟩]⟩ [⟨7, [1], [⟨1, 1⟩]⟩] (by decide)).2⟩

/-- C2 (counterexample to the claim as stated): the claim quantifies over every
reading with `reading_time` at most the store's maximum; the zero sentinel has
`reading_time = 0 ≤ 5` yet its insertion does not raise `NonMonotonicTimeError` —
it is silently skipped (the sentinel check runs before the monotonic check). -/
theorem c2_counterexample :
    (Reading.reading_time ⟨0, [1], [⟨1, 0⟩]⟩
        ≤ Reading.reading_time ⟨5, [1], [⟨1, 1⟩]⟩)
    ∧ (DataStore.readings ⟨10, false, [], [⟨5, [1], [⟨1, 1⟩]⟩]⟩).getLast?
        = some ⟨5, [1], [⟨1, 1⟩]⟩
    ∧ (DataStore.insert ⟨10, false, [], [⟨5, [1], [⟨1, 1⟩]⟩]⟩
        [⟨0, [1], [⟨1, 0⟩]⟩]).2 = none
    ∧ (DataStore.insert ⟨10, false, [], [⟨5, [1], [⟨1, 1⟩]⟩]⟩
        [⟨0, [1], [⟨1, 0⟩]⟩]).1.readings = [⟨5, [1], [⟨1, 1⟩]⟩] := by
  refine ⟨by decide, by decide, ?_, ?_⟩ <;> decide

/-- C2 (amended): for every non-empty DataStore and every *non-sentinel* reading
whose `reading_time` is at most the store's current maximum timestamp, `insert`
fails with `NonMonotonicTimeError` and the store is unchanged by that failed
insertion — no eviction, conversion or append happens for the failing item, the
rest of the batch is abandoned, and readings already inserted earlier in the same
call (the prefix `pre`) remain committed. -/
theorem c2_nonmonotonic_rejected (ds ds' : DataStore) (pre : List Reading)
    (r : Reading) (rest : List Reading) (lastR : Reading)
    (hpre : ds.insert pre = (ds', none))
    (hlast : ds'.readings.getLast? = some lastR)
    (hs : r.isZeroSentinel = false)
    (hle : r.reading_time ≤ lastR.reading_time) :
    ds.insert (pre ++ r :: rest) = (ds', some DataErr.nonMonotonic) := by
  rw [insert_append_ok ds ds' pre (r :: rest) hpre]
  simp only [DataStore.insert, insertOne_reject ds' r lastR hs hlast hle]

/-- Witness for C2: a concrete batch whose second reading repeats the timestamp
of the first is cut off at the repeat, with the first reading still committed. -/
theorem c2_witness :
    DataStore.insert (DataStore.init 10) [⟨1, [1], [⟨1, 2⟩]⟩]
        = (⟨10, false, [], [⟨1, [1], [⟨1, 2⟩]⟩]⟩, none)
    ∧ (DataStore.readings ⟨10, false, [], [⟨1, [1], [⟨1, 2⟩]⟩]⟩).getLast?
        = some ⟨1, [1], [⟨1, 2⟩]⟩
    ∧ Reading.isZeroSentinel ⟨1, [1], [⟨1, 3⟩]⟩ = false
    ∧ Reading.reading_time ⟨1, [1], [⟨1, 3⟩]⟩
        ≤ Reading.reading_time ⟨1, [1], [⟨1, 2⟩]⟩
    ∧ DataStore.insert (DataStore.init 10)
        ([⟨1, [1], [⟨1, 2⟩]⟩] ++ ⟨1, [1], [⟨1, 3⟩]⟩ :: [⟨9, [1], [⟨1, 0⟩]⟩])
      = (⟨10, false, [], [⟨1, [1], [⟨1, 2⟩]⟩]⟩, some DataErr.nonMonotonic) :=
  ⟨rfl, by decide, by decide, by decide,
    c2_nonmonotonic_rejected (DataStore.init 10)
      ⟨10, false, [], [⟨1, [1], [⟨1, 2⟩]⟩]⟩ [⟨1, [1], [⟨1, 2⟩]⟩]
      ⟨1, [1], [⟨1, 3⟩]⟩ [⟨9, [1], [⟨1, 0⟩]⟩] ⟨1, [1], [⟨1, 2⟩]⟩
      rfl (by decide) (by decide) (by decide)⟩

/-- C10: constructing a store with `reading_storage_length <= 0` and
`increase_buffer=False` and inserting any non-sentinel reading into the
(necessarily empty) store hits the capacity check (`0 >= cap`), tries
`del self.readings[0]` on the empty list, and raises `IndexError` — not any of
the spec's named errors — leaving the store unchanged. -/
theorem c10_zero_capacity_index_error (cap : Int) (cbs : List (List ℚ → List ℚ))
    (r : Reading) (hcap : cap ≤ 0) (hs : r.isZeroSentinel = false) :
    (DataStore.init cap false cbs).insert [r]
      = (DataStore.init cap false cbs, some DataErr.indexError) := by
  rw [insert_singleton]
  rw [insertOne_accept _ _ hs (by intro lr hlr; exact absurd hlr (by simp [DataStore.init]))]
  unfold DataStore.insertAccept DataStore.init
  rw [if_pos (by simpa using hcap)]
  rfl

/-- Witness for C10: capacity 0, one ordinary reading. -/
theorem c10_witness :
    (0 : Int) ≤ 0
    ∧ Reading.isZeroSentinel ⟨1, [1], [⟨1, 5⟩]⟩ = false
    ∧ (DataStore.init 0 false []).insert [⟨1, [1], [⟨1, 5⟩]⟩]
        = (DataStore.init 0 false [], some DataErr.indexError) :=
  ⟨by decide, by decide,
    c10_zero_capacity_index_error 0 [] ⟨1, [1], [⟨1, 5⟩]⟩ (by decide) (by decide)⟩

/-- C7 (counterexample to the claim as stated): calling `json_repr()` with the
defaults (`max_bytes=None`, trimming enabled) on any store — here an empty one —
does not fail fast: in Python 2 `len(json_encoded) > None` is `True`, so the
trimming loop runs, and since dropping the last row never brings the length below
`None`, the call never returns at all. -/
theorem c7_counterexample :
    (DataStore.init 5).json_repr none true = JsonResult.hang := by decide

/-- C7 (amended): omitting `max_bytes` never skips the size check and never
produces output, but it does not raise for every store either: with trimming
disabled `json_repr` raises the too-large error, while with trimming enabled
(the default) the trim loop runs forever. -/
theorem c7_none_never_returns (ds : DataStore) :
    ds.json_repr none false = JsonResult.tooLarge
      ∧ ds.json_repr none true = JsonResult.hang := by
  constructor <;> simp [DataStore.json_repr, lenGtMaxBytes]

/-- C1 (code bug): with two readings stored and `max_bytes = 3` — smaller than
the 81-character encoding of one reading — trimming does not terminate with the
empty-array encoding: the loop body re-encodes `json_readings[:-1]` without ever
shrinking `json_readings`, so the encoded length stays above `max_bytes` and the
`while` loop never exits. -/
theorem c1_trim_loop_hangs :
    3 < (dumps [(⟨1, [1], [⟨1, 0⟩]⟩ : Reading).dict_repr]).length
    ∧ DataStore.json_repr
        ⟨10, false, [], [⟨1, [1], [⟨1, 0⟩]⟩, ⟨2, [1], [⟨1, 0⟩]⟩]⟩ (some 3) true
      = JsonResult.hang := by
  constructor <;> decide

/-- Helper for C6: values written back by the zip-truncated update. -/
theorem zip_update_value (l : List Sample) (o : List ℚ) :
    ((l.zip o).map fun p => ({ p.1 with value := p.2 } : Sample)).map Sample.value
      = o.take l.length := by
  induction l generalizing o with
  | nil => simp
  | cons a l ih =>
    cases o with
    | nil => simp
    | cons b o => simp [ih]

/-- Helper for C6: channels are untouched by the zip-truncated update. -/
theorem zip_update_channel (l : List Sample) (o : List ℚ) :
    ((l.zip o).map fun p => ({ p.1 with value := p.2 } : Sample)).map Sample.channel
      = (l.take o.length).map Sample.channel := by
  induction l generalizing o with
  | nil => simp
  | cons a l ih =>
    cases o with
    | nil => simp
    | cons b o => simp [ih]

/-- C6 (amended): `apply_function` performs no arity check at all: it returns
normally for every callback, writing back the returned values pairwise (a
shorter return updates only the first `len(output)` samples and leaves the rest
unchanged; extra returned values are silently ignored), never raising
`ConversionArityError`; the sample count, channels and time are preserved. -/
theorem c6_apply_function_no_check (r : Reading) (f : List ℚ → List ℚ) :
    ((r.apply_function f).samples.map Sample.value
        = (f (r.samples.map Sample.value)).take r.samples.length
          ++ (r.samples.map Sample.value).drop (f (r.samples.map Sample.value)).length)
    ∧ (r.apply_function f).samples.map Sample.channel = r.samples.map Sample.channel
    ∧ (r.apply_function f).samples.length = r.samples.length
    ∧ (r.apply_function f).reading_time = r.reading_time
    ∧ (r.apply_function f).channels = r.channels := by
  unfold Reading.apply_function
  refine ⟨?_, ?_, ?_, rfl, rfl⟩
  · rw [List.map_append, zip_update_value, List.map_drop]
  · rw [List.map_append, zip_update_channel, List.map_take, ← List.map_take,
      ← List.map_append, List.take_append_drop]
  · simp only [List.length_append, List.length_map, List.length_zip,
      List.length_drop]
    omega

/-- C6 (counterexample to the claim as stated): a conversion callback returning
one value for a two-sample reading is not rejected — `apply_function` silently
writes the single value into the first sample and leaves the second sample's old
value in place (a partial write-back, no error of any kind). -/
theorem c6_counterexample :
    (Reading.apply_function ⟨7, [1, 2], [⟨1, 1⟩, ⟨2, 2⟩]⟩ fun _ => [9]).samples
      = [⟨1, 9⟩, ⟨2, 2⟩] := by decide

/-! ### Runs of `insert` that fit within capacity, and the eviction run -/

/-- A sorted, sentinel-free batch that fits within the capacity is appended
verbatim by `insert` (no eviction, no growth, no error), when no conversion
callbacks are registered. -/
theorem insert_fits : ∀ (rs : List Reading) (ds : DataStore),
    ds.conversion_callbacks = [] →
    TimesSorted (ds.readings ++ rs) →
    (∀ r ∈ rs, r.isZeroSentinel = false) →
    ((ds.readings.length + rs.length : Nat) : Int) ≤ ds.reading_storage_length →
    ds.insert rs = ({ ds with readings := ds.readings ++ rs }, none) := by
  intro rs
  induction rs with
  | nil =>
    intro ds hcb hsorted hns hlen
    simp [DataStore.insert]
  | cons r rest ih =>
    intro ds hcb hsorted hns hlen
    have hs := hns r (by simp)
    have hmono : ∀ lastR, ds.readings.getLast? = some lastR →
        lastR.reading_time < r.reading_time := fun lastR hl =>
      (List.pairwise_append.mp hsorted).2.2 lastR (List.mem_of_mem_getLast? hl) r (by simp)
    have hlt : ¬ ((ds.readings.length : Int) ≥ ds.reading_storage_length) := by
      simp only [List.length_cons] at hlen
      push_cast at hlen ⊢
      omega
    have h1 : ds.insertOne r = ({ ds with readings := ds.readings ++ [r] }, none) := by
      rw [insertOne_accept ds r hs hmono]
      unfold DataStore.insertAccept
      rw [if_neg hlt]
      simp only [DataStore.insert_reading, hcb, applyAll_nil]
    simp only [DataStore.insert, h1]
    rw [ih { ds with readings := ds.readings ++ [r] } hcb
      (by simpa [List.append_assoc] using hsorted)
      (fun x hx => hns x (by simp [hx]))
      (by simp only [List.length_append, List.length_singleton, List.length_cons,
            List.length_nil] at hlen ⊢
          push_cast at hlen ⊢
          omega)]
    have hl : (ds.readings ++ [r]) ++ rest = ds.readings ++ r :: rest := by
      simp [List.append_assoc]
    simp only [hl]

/-- For a strictly ascending list, the `<= t` readings followed by the `> t`
readings are the whole list. -/
theorem filter_partition_sorted (t : Int) (rs : List Reading) (h : TimesSorted rs) :
    rs.filter (fun r => r.reading_time ≤ t) ++ rs.filter (fun r => t < r.reading_time)
      = rs := by
  induction rs with
  | nil => rfl
  | cons a rs ih =>
    have ha := (List.pairwise_cons.mp h).1
    have hs : TimesSorted rs := h.of_cons
    by_cases hat : a.reading_time ≤ t
    · rw [List.filter_cons_of_pos (by simpa using hat),
        List.filter_cons_of_neg (by simpa using hat)]
      simp only [List.cons_append]
      rw [ih hs]
    · rw [List.filter_cons_of_neg (by simpa using hat),
        List.filter_cons_of_pos (by simpa using not_le.mp hat)]
      have h1 : rs.filter (fun r => r.reading_time ≤ t) = [] := by
        rw [List.filter_eq_nil_iff]
        intro x hx
        simp only [decide_eq_true_eq]
        have := ha x hx
        omega
      have h2 : rs.filter (fun r => t < r.reading_time) = rs := by
        rw [List.filter_eq_self]
        intro x hx
        simp only [decide_eq_true_eq]
        have := ha x hx
        omega
      rw [h1, h2]
      rfl

/-- C8 (counterexample to the claim as stated): a store can hold a reading that
looks like the zero sentinel (time 0, all values 0) — here reached by inserting a
non-sentinel reading through a conversion callback that zeroes every value.  For
`t = 3` (not a stored timestamp) the reading at time 0 goes to
`find_readings_before(3)`, whose `instance_with_readings` re-runs `insert`, which
silently drops it as a sentinel: the union of the two query results misses it. -/
theorem c8_counterexample :
    ((DataStore.init 2 false [fun xs => xs.map fun _ => 0]).insert
        [⟨0, [1], [⟨1, 3⟩]⟩, ⟨5, [1], [⟨1, 1⟩]⟩]).1.readings
      = [⟨0, [1], [⟨1, 0⟩]⟩, ⟨5, [1], [⟨1, 0⟩]⟩]
    ∧ (∀ r ∈ ((DataStore.init 2 false [fun xs => xs.map fun _ => 0]).insert
        [⟨0, [1], [⟨1, 3⟩]⟩, ⟨5, [1], [⟨1, 1⟩]⟩]).1.readings, r.reading_time ≠ 3)
    ∧ (((DataStore.init 2 false [fun xs => xs.map fun _ => 0]).insert
          [⟨0, [1], [⟨1, 3⟩]⟩, ⟨5, [1], [⟨1, 1⟩]⟩]).1.find_readings_before 3).1.readings
        ++ (((DataStore.init 2 false [fun xs => xs.map fun _ => 0]).insert
          [⟨0, [1], [⟨1, 3⟩]⟩, ⟨5, [1], [⟨1, 1⟩]⟩]).1.find_readings_after 3).1.readings
      = [⟨5, [1], [⟨1, 0⟩]⟩] := by
  refine ⟨?_, ?_, ?_⟩ <;> decide

/-- C8 (amended): for every DataStore satisfying the store invariant (strictly
ascending times, size within capacity) *none of whose stored readings is the
zero sentinel*, and every timestamp `t` that is not a stored reading's time, the
readings of `find_readings_before(t)` followed by those of
`find_readings_after(t)` are exactly the original readings (the two filters
`reading_time <= t` / `reading_time > t` in original order), both query calls
succeed, and each result is a new DataStore sharing the original's capacity. -/
theorem c8_before_after_partition (ds : DataStore) (t : Int)
    (hsorted : TimesSorted ds.readings)
    (hns : ∀ r ∈ ds.readings, r.isZeroSentinel = false)
    (hlen : (ds.readings.length : Int) ≤ ds.reading_storage_length)
    (ht : ∀ r ∈ ds.readings, r.reading_time ≠ t) :
    ((ds.find_readings_before t).1.readings ++ (ds.find_readings_after t).1.readings
        = ds.readings)
    ∧ (ds.find_readings_before t).1.readings
        = ds.readings.filter (fun r => r.reading_time ≤ t)
    ∧ (ds.find_readings_after t).1.readings
        = ds.readings.filter (fun r => t < r.reading_time)
    ∧ (ds.find_readings_before t).2 = none
    ∧ (ds.find_readings_after t).2 = none
    ∧ (ds.find_readings_before t).1.reading_storage_length = ds.reading_storage_length
    ∧ (ds.find_readings_after t).1.reading_storage_length = ds.reading_storage_length := by
  have hfits : ∀ (p : Reading → Bool),
      (DataStore.init ds.reading_storage_length).insert (ds.readings.filter p)
        = ({ DataStore.init ds.reading_storage_length with
              readings := ds.readings.filter p }, none) := by
    intro p
    rw [insert_fits (ds.readings.filter p) (DataStore.init ds.reading_storage_length)
      rfl
      (by simpa using hsorted.sublist (List.filter_sublist _))
      (fun r hr => hns r (List.mem_of_mem_filter hr))
      (by simpa [DataStore.init] using
        le_trans (Int.ofNat_le.mpr (List.length_filter_le p ds.readings)) hlen)]
    simp [DataStore.init]
  have hbefore := hfits fun r => r.reading_time ≤ t
  have hafter := hfits fun r => t < r.reading_time
  unfold DataStore.find_readings_before DataStore.find_readings_after
    DataStore.instance_with_readings
  rw [hbefore, hafter]
  refine ⟨?_, rfl, rfl, rfl, rfl, rfl, rfl⟩
  exact filter_partition_sorted t ds.readings hsorted

/-- Witness for C8: a concrete two-reading store split at `t = 3`. -/
theorem c8_witness :
    TimesSorted (DataStore.readings ⟨3, false, [], [⟨1, [1], [⟨1, 1⟩]⟩, ⟨5, [1], [⟨1, 2⟩]⟩]⟩)
    ∧ (∀ r ∈ DataStore.readings ⟨3, false, [], [⟨1, [1], [⟨1, 1⟩]⟩, ⟨5, [1], [⟨1, 2⟩]⟩]⟩,
        r.isZeroSentinel = false)
    ∧ ((DataStore.readings ⟨3, false, [], [⟨1, [1], [⟨1, 1⟩]⟩, ⟨5, [1], [⟨1, 2⟩]⟩]⟩).length : Int)
        ≤ (3 : Int)
    ∧ (∀ r ∈ DataStore.readings ⟨3, false, [], [⟨1, [1], [⟨1, 1⟩]⟩, ⟨5, [1], [⟨1, 2⟩]⟩]⟩,
        r.reading_time ≠ 3)
    ∧ (((⟨3, false, [], [⟨1, [1], [⟨1, 1⟩]⟩, ⟨5, [1], [⟨1, 2⟩]⟩]⟩ : DataStore).find_readings_before 3).1.readings
          ++ ((⟨3, false, [], [⟨1, [1], [⟨1, 1⟩]⟩, ⟨5, [1], [⟨1, 2⟩]⟩]⟩ : DataStore).find_readings_after 3).1.readings
        = [⟨1, [1], [⟨1, 1⟩]⟩, ⟨5, [1], [⟨1, 2⟩]⟩]) :=
  ⟨by decide, by decide, by decide, by decide,
    (c8_before_after_partition ⟨3, false, [], [⟨1, [1], [⟨1, 1⟩]⟩, ⟨5, [1], [⟨1, 2⟩]⟩]⟩ 3
      (by decide) (by decide) (by decide) (by decide)).1⟩

/-! ### Dict-representation round trip -/

/-- Helper for C9: rebuilding every sample of a reading from its
`(channel, value)` pairs succeeds and returns the very same samples, when all
channels are valid. -/
theorem mapM_sample_init (is_valid : Int → Bool) :
    ∀ (ss : List Sample), (∀ s ∈ ss, is_valid s.channel = true) →
      ((ss.map fun s => (s.channel, s.value)).mapM
          fun cv => Sample.init is_valid cv.1 cv.2) = Except.ok ss := by
  intro ss h
  induction ss with
  | nil => rfl
  | cons s ss ih =>
    have hsv : Sample.init is_valid s.channel s.value = Except.ok s := by
      unfold Sample.init
      rw [if_pos (h s (List.mem_cons_self _ _))]
    rw [List.map_cons, List.mapM_cons, hsv,
      ih (fun x hx => h x (List.mem_cons_of_mem _ hx))]
    rfl

/-- Helper for C9: `Reading.__init__` applied to the fields of `dict_repr()`
reconstructs the original reading exactly, provided the reading's samples are
parallel to its channel list (as `Reading.__init__` always leaves them) and the
channels are valid. -/
theorem reading_init_dict_repr (is_valid : Int → Bool) (r : Reading)
    (hwf : r.samples.map Sample.channel = r.channels)
    (hvalid : ∀ c ∈ r.channels, is_valid c = true) :
    Reading.init is_valid r.dict_repr.reading_time r.dict_repr.channels
        (r.dict_repr.samples.map SampleDict.value) = Except.ok r := by
  have hvals : r.dict_repr.samples.map SampleDict.value = r.samples.map Sample.value := by
    simp only [Reading.dict_repr, List.map_map]
    rfl
  have hlensc : r.channels.length = r.samples.length := by
    rw [← hwf, List.length_map]
  show Reading.init is_valid r.reading_time r.channels
      (r.dict_repr.samples.map SampleDict.value) = Except.ok r
  rw [hvals]
  unfold Reading.init
  rw [if_pos (by rw [hlensc, List.length_map])]
  have hzip : r.channels.zip (r.samples.map Sample.value)
      = r.samples.map fun s => (s.channel, s.value) := by
    rw [← hwf, List.zip_map']
  rw [hzip, mapM_sample_init is_valid r.samples
    (fun s hs => hvalid s.channel (by rw [← hwf]; exact List.mem_map_of_mem _ hs))]
  rfl

/-- Helper for C9: reconstructing every reading of a serialized store succeeds
and returns the original readings. -/
theorem mapM_reading_init (is_valid : Int → Bool) :
    ∀ (rs : List Reading),
      (∀ r ∈ rs, r.samples.map Sample.channel = r.channels) →
      (∀ r ∈ rs, ∀ c ∈ r.channels, is_valid c = true) →
      ((rs.map Reading.dict_repr).mapM fun row =>
          Reading.init is_valid row.reading_time row.channels
            (row.samples.map SampleDict.value)) = Except.ok rs := by
  intro rs hwf hvalid
  induction rs with
  | nil => rfl
  | cons r rs ih =>
    rw [List.map_cons, List.mapM_cons,
      reading_init_dict_repr is_valid r (hwf r (List.mem_cons_self _ _))
        (hvalid r (List.mem_cons_self _ _)),
      ih (fun x hx => hwf x (List.mem_cons_of_mem _ hx))
        (fun x hx => hvalid x (List.mem_cons_of_mem _ hx))]
    rfl

/-- C9: serializing each reading of a store via `dict_repr` and reloading the
list with `instance_from_dict` yields a store whose readings are identical in
contents to the original (and the reload raises nothing).  The hypotheses state
what is true of every store built through `insert` with no conversion callbacks:
strictly ascending times, no stored zero sentinel, samples parallel to the
channel list, and channels that passed `Channel.is_valid` when first built. -/
theorem c9_dict_roundtrip (is_valid : Int → Bool) (ds : DataStore)
    (hsorted : TimesSorted ds.readings)
    (hns : ∀ r ∈ ds.readings, r.isZeroSentinel = false)
    (hwf : ∀ r ∈ ds.readings, r.samples.map Sample.channel = r.channels)
    (hvalid : ∀ r ∈ ds.readings, ∀ c ∈ r.channels, is_valid c = true) :
    (DataStore.instance_from_dict is_valid (ds.readings.map Reading.dict_repr)).1.readings
        = ds.readings
    ∧ (DataStore.instance_from_dict is_valid (ds.readings.map Reading.dict_repr)).2
        = none := by
  unfold DataStore.instance_from_dict DataStore.insert_from_dict
  rw [mapM_reading_init is_valid ds.readings hwf hvalid]
  dsimp only
  rw [insert_fits ds.readings (DataStore.init ((ds.readings.map Reading.dict_repr).length))
    rfl (by simpa [DataStore.init] using hsorted) hns
    (by simp [DataStore.init])]
  exact ⟨by simp [DataStore.init], rfl⟩

/-- Witness for C9: a concrete two-reading store round-trips. -/
theorem c9_witness :
    TimesSorted (DataStore.readings ⟨2, false, [], [⟨1, [1], [⟨1, 1⟩]⟩, ⟨5, [1, 2], [⟨1, 2⟩, ⟨2, 3⟩]⟩]⟩)
    ∧ (∀ r ∈ DataStore.readings ⟨2, false, [], [⟨1, [1], [⟨1, 1⟩]⟩, ⟨5, [1, 2], [⟨1, 2⟩, ⟨2, 3⟩]⟩]⟩,
        r.isZeroSentinel = false)
    ∧ (∀ r ∈ DataStore.readings ⟨2, false, [], [⟨1, [1], [⟨1, 1⟩]⟩, ⟨5, [1, 2], [⟨1, 2⟩, ⟨2, 3⟩]⟩]⟩,
        r.samples.map Sample.channel = r.channels)
    ∧ (∀ r ∈ DataStore.readings ⟨2, false, [], [⟨1, [1], [⟨1, 1⟩]⟩, ⟨5, [1, 2], [⟨1, 2⟩, ⟨2, 3⟩]⟩]⟩,
        ∀ c ∈ r.channels, (fun _ => true) c = true)
    ∧ (DataStore.instance_from_dict (fun _ => true)
          ((DataStore.readings ⟨2, false, [], [⟨1, [1], [⟨1, 1⟩]⟩, ⟨5, [1, 2], [⟨1, 2⟩, ⟨2, 3⟩]⟩]⟩).map
            Reading.dict_repr)).1.readings
        = [⟨1, [1], [⟨1, 1⟩]⟩, ⟨5, [1, 2], [⟨1, 2⟩, ⟨2, 3⟩]⟩] :=
  ⟨by decide, by decide, by decide, by decide,
    (c9_dict_roundtrip (fun _ => true)
      ⟨2, false, [], [⟨1, [1], [⟨1, 1⟩]⟩, ⟨5, [1, 2], [⟨1, 2⟩, ⟨2, 3⟩]⟩]⟩
      (by decide) (by decide) (by decide) (by decide)).1⟩

/-- A sorted, sentinel-free batch inserted into an evict-on-overflow store with
no callbacks and capacity at least 1 leaves exactly the last `capacity` of the
old-readings-then-batch sequence (dropping from the front), with no error. -/
theorem insert_evict_run : ∀ (rs : List Reading) (ds : DataStore),
    ds.conversion_callbacks = [] →
    ds.increase_buffer = false →
    1 ≤ ds.reading_storage_length →
    TimesSorted (ds.readings ++ rs) →
    (∀ r ∈ rs, r.isZeroSentinel = false) →
    (ds.readings.length : Int) ≤ ds.reading_storage_length →
    ds.insert rs
      = ({ ds with readings :=
            ((ds.readings ++ rs).drop
              ((ds.readings ++ rs).length - ds.reading_storage_length.toNat)) },
         none) := by
  intro rs
  induction rs with
  | nil =>
    intro ds hcb hincr hcap hsorted hns hlen
    have hzero : ds.readings.length - ds.reading_storage_length.toNat = 0 := by
      omega
    simp only [DataStore.insert, List.append_nil, hzero, List.drop_zero]
  | cons r rest ih =>
    intro ds hcb hincr hcap hsorted hns hlen
    have hs := hns r (by simp)
    have hmono : ∀ lastR, ds.readings.getLast? = some lastR →
        lastR.reading_time < r.reading_time := fun lastR hl =>
      (List.pairwise_append.mp hsorted).2.2 lastR (List.mem_of_mem_getLast? hl) r (by simp)
    by_cases hge : (ds.readings.length : Int) ≥ ds.reading_storage_length
    · -- at capacity: the oldest reading is evicted
      have hlencap : (ds.readings.length : Int) = ds.reading_storage_length :=
        le_antisymm hlen hge
      obtain ⟨h0, tail, hds⟩ : ∃ h0 tail, ds.readings = h0 :: tail := by
        cases hds : ds.readings with
        | nil => rw [hds] at hlencap; simp at hlencap; omega
        | cons a l => exact ⟨a, l, rfl⟩
      have h1 : ds.insertOne r = ({ ds with readings := tail ++ [r] }, none) := by
        rw [insertOne_accept ds r hs hmono]
        unfold DataStore.insertAccept
        rw [if_pos hge, hincr]
        simp only [Bool.false_eq_true, if_false, hds, DataStore.insert_reading, hcb,
          applyAll_nil]
      simp only [DataStore.insert, h1]
      rw [ih { ds with readings := tail ++ [r] } hcb hincr hcap
        (by
          rw [hds] at hsorted
          simpa [List.append_assoc] using hsorted.of_cons)
        (fun x hx => hns x (by simp [hx]))
        (by
          rw [hds] at hlencap
          simp only [List.length_append, List.length_singleton, List.length_cons,
            List.length_nil] at hlencap ⊢
          push_cast at hlencap ⊢
          omega)]
      have hlist :
          ((tail ++ [r]) ++ rest).drop
              (((tail ++ [r]) ++ rest).length - ds.reading_storage_length.toNat)
            = (ds.readings ++ r :: rest).drop
              ((ds.readings ++ r :: rest).length - ds.reading_storage_length.toNat) := by
        rw [hds]
        have hcnt : tail.length + 1 = ds.reading_storage_length.toNat := by
          rw [hds] at hlencap
          simp only [List.length_cons] at hlencap
          omega
        have hassoc : (tail ++ [r]) ++ rest = tail ++ r :: rest := by
          simp [List.append_assoc]
        rw [hassoc]
        have hcons : (h0 :: tail) ++ r :: rest = h0 :: (tail ++ r :: rest) := rfl
        rw [hcons]
        have hlen2 : (h0 :: (tail ++ r :: rest)).length
            = (tail ++ r :: rest).length + 1 := by simp
        rw [hlen2]
        have hge2 : ds.reading_storage_length.toNat ≤ (tail ++ r :: rest).length := by
          simp only [List.length_append, List.length_cons]
          omega
        have hsub : (tail ++ r :: rest).length + 1 - ds.reading_storage_length.toNat
            = ((tail ++ r :: rest).length - ds.reading_storage_length.toNat) + 1 := by
          omega
        rw [hsub, List.drop_succ_cons]
      rw [hlist]
    · -- below capacity: plain append
      have h1 : ds.insertOne r = ({ ds with readings := ds.readings ++ [r] }, none) := by
        rw [insertOne_accept ds r hs hmono]
        unfold DataStore.insertAccept
        rw [if_neg hge]
        simp only [DataStore.insert_reading, hcb, applyAll_nil]
      simp only [DataStore.insert, h1]
      rw [ih { ds with readings := ds.readings ++ [r] } hcb hincr hcap
        (by simpa [List.append_assoc] using hsorted)
        (fun x hx => hns x (by simp [hx]))
        (by
          simp only [List.length_append, List.length_singleton]
          push_cast
          omega)]
      have hassoc : (ds.readings ++ [r]) ++ rest = ds.readings ++ r :: rest := by
        simp [List.append_assoc]
      simp only [hassoc]

/-- C4: with `increase_buffer=False` and capacity `C >= 1`, inserting `C + k`
readings (`k > 0`) one at a time, with strictly increasing timestamps and none
being the zero sentinel, leaves exactly the most recent `C` readings in the
store in their original insertion order: the `k` oldest were evicted from index
0, one per overflowing insert. -/
theorem c4_evicts_oldest (C : Int) (k : Nat) (rs : List Reading)
    (hC : 1 ≤ C) (hk : 0 < k)
    (hsorted : TimesSorted rs)
    (hns : ∀ r ∈ rs, r.isZeroSentinel = false)
    (hlen : (rs.length : Int) = C + k) :
    (DataStore.init C).insertSeq rs = (⟨C, false, [], rs.drop k⟩, none) := by
  rw [insertSeq_eq_insert]
  rw [insert_evict_run rs (DataStore.init C) rfl rfl hC
    (by simpa using hsorted) hns (by simp [DataStore.init]; omega)]
  have hdrop : rs.length - C.toNat = k := by omega
  simp only [DataStore.init, List.nil_append, hdrop]

/-- Witness for C4: capacity 2, three readings — the first is evicted. -/
theorem c4_witness :
    (1 : Int) ≤ 2 ∧ 0 < 1
    ∧ TimesSorted [⟨1, [1], [⟨1, 1⟩]⟩, ⟨2, [1], [⟨1, 2⟩]⟩, ⟨3, [1], [⟨1, 3⟩]⟩]
    ∧ (∀ r ∈ [(⟨1, [1], [⟨1, 1⟩]⟩ : Reading), ⟨2, [1], [⟨1, 2⟩]⟩, ⟨3, [1], [⟨1, 3⟩]⟩],
        r.isZeroSentinel = false)
    ∧ (([(⟨1, [1], [⟨1, 1⟩]⟩ : Reading), ⟨2, [1], [⟨1, 2⟩]⟩, ⟨3, [1], [⟨1, 3⟩]⟩].length : Int)
        = 2 + 1)
    ∧ (DataStore.init 2).insertSeq
        [⟨1, [1], [⟨1, 1⟩]⟩, ⟨2, [1], [⟨1, 2⟩]⟩, ⟨3, [1], [⟨1, 3⟩]⟩]
      = (⟨2, false, [], [⟨2, [1], [⟨1, 2⟩]⟩, ⟨3, [1], [⟨1, 3⟩]⟩]⟩, none) :=
  ⟨by decide, by decide, by decide, by decide, by decide,
    c4_evicts_oldest 2 1 [⟨1, [1], [⟨1, 1⟩]⟩, ⟨2, [1], [⟨1, 2⟩]⟩, ⟨3, [1], [⟨1, 3⟩]⟩]
      (by decide) (by decide) (by decide) (by decide) (by decide)⟩
